import Mathlib

/-!
Formal model of the `tools` repository's filesystem scanner
(`src/scanner.py`) and pycache cleaner (`src/clean_pycache.py`).

Python strings are modelled as `List Char` (a Python `str` is a sequence
of code points), paths as lists of name components. Machine-level
filesystem effects (`lstat`, `readlink`, `rglob`, `rmtree`, `is_dir`)
are modelled as explicit inputs describing what the OS returns for each
entry; the scanner's pure logic on those results is translated function
by function from the source.
-/

namespace Tools

/-- A Python `str`, modelled as its sequence of code points. -/
abbrev Str := List Char

/-- Shorthand for writing character-list literals. -/
def chars (s : String) : Str := s.toList

/-! ### Timestamp normalizer (`scanner.py`, `format_timestamp`)

`datetime.fromtimestamp(epoch, tz=timezone.utc)` succeeds exactly when
the instant falls within `datetime`'s calendar range, year 1 through
year 9999 (otherwise it raises `ValueError`/`OverflowError`/`OSError`,
which the source catches and turns into `None`).
`isoformat(timespec="seconds")` renders
`YYYY-MM-DDTHH:MM:SS+00:00` (seconds truncated), and the source then
calls `.replace("+00:00", "Z")`. Epochs are modelled at whole-second
resolution as `Int`. -/

/-- Seconds from the epoch to `0001-01-01T00:00:00Z`:
`MIN_TS = -719162 * 86400` (719162 days before 1970-01-01). -/
def MIN_TS : Int := -62135596800

/-- Epoch seconds of `9999-12-31T23:59:59Z`, the largest instant
`datetime` can represent at second precision. -/
def MAX_TS : Int := 253402300799

/-- The decimal digit character for `n % 10`. -/
def digitChar (n : Nat) : Char := Char.ofNat (48 + n % 10)

/-- Two-digit zero-padded decimal rendering (`%02d` for values < 100). -/
def pad2 (n : Nat) : Str := [digitChar (n / 10), digitChar n]

/-- Four-digit zero-padded decimal rendering (`%04d` for values < 10000). -/
def pad4 (n : Nat) : Str :=
  [digitChar (n / 1000), digitChar (n / 100), digitChar (n / 10), digitChar n]

/-- Gregorian date from a day count with epoch `0000-03-01`
(the standard civil-from-days conversion realised by every proleptic
Gregorian calendar implementation, including CPython's `datetime`).
Returns `(year, month, day)`. -/
def civilFromDays (z : Nat) : Nat × Nat × Nat :=
  let era := z / 146097
  let doe := z % 146097
  let yoe := (doe - doe / 1460 + doe / 36524 - doe / 146096) / 365
  let y := yoe + era * 400
  let doy := doe - (365 * yoe + yoe / 4 - yoe / 100)
  let mp := (5 * doy + 2) / 153
  let d := doy - (153 * mp + 2) / 5 + 1
  let m := if mp < 10 then mp + 3 else mp - 9
  (if m ≤ 2 then y + 1 else y, m, d)

/-- The canonical UTC offset rendering `+00:00` that
`datetime.isoformat` appends for `timezone.utc`. -/
def offStr : Str := ['+', '0', '0', ':', '0', '0']

/-- `datetime.fromtimestamp(e, tz=utc).isoformat(timespec="seconds")`
without the offset: `YYYY-MM-DDTHH:MM:SS`. The argument is in seconds
since `0001-01-01T00:00:00Z`, i.e. `(e - MIN_TS).toNat` for an in-range
epoch `e`, so the computed year is between 1 and 9999. -/
def isoCore (t : Nat) : Str :=
  let days := t / 86400
  let sod := t % 86400
  let ymd := civilFromDays (days + 306)
  pad4 ymd.1 ++ '-' :: pad2 ymd.2.1 ++ '-' :: pad2 ymd.2.2 ++
    'T' :: pad2 (sod / 3600) ++ ':' :: pad2 (sod % 3600 / 60) ++ ':' :: pad2 (sod % 60)

/-- Full `isoformat(timespec="seconds")` output for an in-range epoch:
date-time core followed by the `+00:00` offset. -/
def isoformatUTC (e : Int) : Str := isoCore (e - MIN_TS).toNat ++ offStr

/-- Python `str.replace(pat, rep)` specialised to the source's call
`.replace("+00:00", "Z")`: replaces every non-overlapping occurrence of
the six-character pattern `+00:00`, scanning left to right. -/
def replaceOffsetZ : Str → Str
  | '+' :: '0' :: '0' :: ':' :: '0' :: '0' :: rest => 'Z' :: replaceOffsetZ rest
  | c :: rest => c :: replaceOffsetZ rest
  | [] => []

/-- `format_timestamp` from `scanner.py`: `None` maps to `None`, an
epoch outside `datetime`'s calendar range maps to `None` (the caught
exception branch, logged at debug level), and otherwise the UTC
ISO-8601 rendering with the `+00:00` offset textually replaced. -/
def format_timestamp : Option Int → Option Str
  | none => none
  | some e =>
    if MIN_TS ≤ e ∧ e ≤ MAX_TS then some (replaceOffsetZ (isoformatUTC e))
    else none

/-! ### Filesystem model

An `FSEntry` records what the OS returns for one path: its components
(absolute, below `/`), the result of `lstat` (`none` models `OSError`),
and the result of `readlink` (`none` models `OSError`; only consulted
for symlinks). A `Stat` carries the fields of `os.stat_result` the
scanner reads; `st_birthtime` is `none` when the host does not surface
a creation time (Python's `hasattr` check fails). -/

/-- The fields of `os.stat_result` used by the scanner. Timestamps are
epoch seconds; `st_birthtime` is present only on hosts that surface a
creation time. -/
structure Stat where
  st_mode : Nat
  st_mtime : Int
  st_atime : Int
  st_ctime : Int
  st_birthtime : Option Int
  st_size : Nat
deriving DecidableEq, Repr

/-- What the OS reports for one filesystem path. -/
structure FSEntry where
  absParts : List Str
  lstatResult : Option Stat
  readlinkResult : Option Str
deriving DecidableEq, Repr

/-- `stat.S_ISDIR`: file-format bits (`mode & 0o170000`) equal `S_IFDIR`. -/
def S_ISDIR (mode : Nat) : Bool := mode &&& 0xF000 == 0x4000

/-- `stat.S_ISREG`. -/
def S_ISREG (mode : Nat) : Bool := mode &&& 0xF000 == 0x8000

/-- `stat.S_ISLNK`. -/
def S_ISLNK (mode : Nat) : Bool := mode &&& 0xF000 == 0xA000

/-- The four `type` values the scanner emits. -/
inductive EntryType
  | folder
  | file
  | symlink
  | unknown
deriving DecidableEq, Repr

/-- The classification chain of `get_file_metadata`: directory, then
regular file, then symlink, else `unknown`. -/
def classify (mode : Nat) : EntryType :=
  if S_ISDIR mode then .folder
  else if S_ISREG mode then .file
  else if S_ISLNK mode then .symlink
  else .unknown

/-- `stat.filemode`: symbolic mode rendering, one file-type character
followed by nine permission characters, first match per position in
CPython's `_filemode_table`. -/
def filemode (mode : Nat) : Str :=
  let ft :=
    if mode &&& 0xA000 == 0xA000 then 'l'
    else if mode &&& 0xC000 == 0xC000 then 's'
    else if mode &&& 0x8000 == 0x8000 then '-'
    else if mode &&& 0x6000 == 0x6000 then 'b'
    else if mode &&& 0x4000 == 0x4000 then 'd'
    else if mode &&& 0x2000 == 0x2000 then 'c'
    else if mode &&& 0x1000 == 0x1000 then 'p'
    else '?'
  let ur := if mode &&& 256 == 256 then 'r' else '-'
  let uw := if mode &&& 128 == 128 then 'w' else '-'
  let ux :=
    if mode &&& 2112 == 2112 then 's'
    else if mode &&& 2048 == 2048 then 'S'
    else if mode &&& 64 == 64 then 'x' else '-'
  let gr := if mode &&& 32 == 32 then 'r' else '-'
  let gw := if mode &&& 16 == 16 then 'w' else '-'
  let gx :=
    if mode &&& 1032 == 1032 then 's'
    else if mode &&& 1024 == 1024 then 'S'
    else if mode &&& 8 == 8 then 'x' else '-'
  let orr := if mode &&& 4 == 4 then 'r' else '-'
  let ow := if mode &&& 2 == 2 then 'w' else '-'
  let ox :=
    if mode &&& 513 == 513 then 't'
    else if mode &&& 512 == 512 then 'T'
    else if mode &&& 1 == 1 then 'x' else '-'
  [ft, ur, uw, ux, gr, gw, gx, orr, ow, ox]

/-- `"/".join(parts)`, i.e. `PurePosixPath.as_posix` on a relative path
with the given components. -/
def joinParts (parts : List Str) : Str := List.intercalate ['/'] parts

/-- `as_posix` of an absolute path with the given components. -/
def absRender (parts : List Str) : Str := '/' :: joinParts parts

/-- `Path.relative_to`: succeeds (with the remaining components) exactly
when `base`'s components are a prefix of `p`'s; otherwise `ValueError`,
modelled as `none`. -/
def relative_to (p base : List Str) : Option (List Str) :=
  if base <+: p then some (p.drop base.length) else none

/-- `Path.name`: the final path component (empty for `/`). -/
def pyName (absParts : List Str) : Str := (absParts.getLast?).getD []

/-- Index of the last occurrence of `c` in `s` (Python `str.rfind`),
or `none` when absent. -/
def rfindIdx (c : Char) (s : Str) : Option Nat :=
  (s.reverse.findIdx? (· == c)).map (fun j => s.length - 1 - j)

/-- `PurePath.suffix`: the substring from the last dot, provided that
dot is neither the first nor the last character of the name;
otherwise empty. -/
def pySuffix (name : Str) : Str :=
  match rfindIdx '.' name with
  | none => []
  | some i => if 0 < i ∧ i < name.length - 1 then name.drop i else []

/-- `str.lower` (the scanner only ever lowercases ASCII suffixes). -/
def toLowerStr (s : Str) : Str := s.map Char.toLower

/-- `str.startswith(".")`. -/
def startsWithDot : Str → Bool
  | '.' :: _ => true
  | _ => false

/-- One JSON record of the scanner's `items` array. An outer `none`
models an absent key; an inner `none` models an explicit JSON `null`. -/
structure EntryRecord where
  path : Str
  type : EntryType
  permissions : Str
  modified_utc : Option Str
  accessed_utc : Option Str
  metadata_changed_utc : Option Str
  created_utc : Option (Option Str) := none
  size_bytes : Option Nat := none
  extension : Option (Option Str) := none
  symlink_target : Option (Option Str) := none
deriving DecidableEq, Repr

/-- `get_file_metadata` from `scanner.py`: `lstat` the entry (an
`OSError` yields `None`), classify the mode bits, compute the
root-relative POSIX path (falling back to the absolute rendering when
`relative_to` raises), format the three timestamps, add `created_utc`
only when the host surfaces `st_birthtime`, and add the type-specific
fields for files and symlinks. -/
def get_file_metadata (e : FSEntry) (rootAbs : List Str) : Option EntryRecord :=
  match e.lstatResult with
  | none => none
  | some st =>
    let mode := st.st_mode
    let kind : EntryType := classify mode
    let rel_path : Str :=
      match relative_to e.absParts rootAbs with
      | some rel => if rel = [] then ['.'] else joinParts rel
      | none => absRender e.absParts
    let base : EntryRecord := {
      path := rel_path
      type := kind
      permissions := filemode mode
      modified_utc := format_timestamp (some st.st_mtime)
      accessed_utc := format_timestamp (some st.st_atime)
      metadata_changed_utc := format_timestamp (some st.st_ctime)
      created_utc := st.st_birthtime.map (fun b => format_timestamp (some b))
    }
    if kind = .file then
      let ext := toLowerStr ((pySuffix (pyName e.absParts)).dropWhile (· == '.'))
      some { base with
        size_bytes := some st.st_size
        extension := some (if ext = [] then none else some ext) }
    else if kind = .symlink then
      some { base with symlink_target := some e.readlinkResult }
    else
      some base

/-- The components of an entry's path relative to the scan root:
`path.relative_to(root).parts`. For paths yielded by `root.rglob` the
root's components are always a proper prefix of the entry's, so
`relative_to` succeeds and equals dropping the root's components. -/
def relParts (rootAbs : List Str) (e : FSEntry) : List Str :=
  e.absParts.drop rootAbs.length

/-- The loop body of `scan_directory`'s walk: skip the entry when
hidden filtering applies (some root-relative component starts with a
dot), otherwise take its metadata record when extraction succeeds. -/
def scanStep (rootAbs : List Str) (include_hidden : Bool) (e : FSEntry) :
    Option EntryRecord :=
  if !include_hidden && ((relParts rootAbs e).any fun part => startsWithDot part) then
    none
  else
    get_file_metadata e rootAbs

/-- `scan_directory` from `scanner.py`. The root's metadata is taken
first (`sys.exit(1)` on failure, modelled as `none`) and its `path`
overridden to `.`; then each path yielded by `root.rglob("*")` (the
`descendants` list, in traversal order) contributes through
`scanStep`. -/
def scan_directory (rootAbs : List Str) (rootEntry : FSEntry)
    (descendants : List FSEntry) (include_hidden : Bool) :
    Option (List EntryRecord) :=
  match get_file_metadata rootEntry rootAbs with
  | none => none
  | some rootMeta =>
    let rootMeta := { rootMeta with path := ['.'] }
    some (rootMeta :: descendants.filterMap (scanStep rootAbs include_hidden))

/-! ### `main` (`scanner.py`)

The argument-independent parts of the environment — what `resolve()`,
`is_dir()`, `is_symlink()` return for the command-line root, the stat
results for the tree, and whether opening/writing the output file
succeeds — are inputs. `resolvedRoot` is `args.root_dir.resolve()`;
`rootIsDir`, `rootIsSymlink`, `rootResolveIsDir` are `is_dir()`,
`is_symlink()`, `resolve().is_dir()` evaluated on that already-resolved
path. -/

/-- The command-line arguments that influence `main`'s data flow. -/
structure ScanArgs where
  include_hidden : Bool
  output : Option (List Str)
deriving DecidableEq, Repr

/-- The OS-supplied facts `main` consumes. -/
structure MainEnv where
  cwd : List Str
  resolvedRoot : List Str
  rootIsDir : Bool
  rootIsSymlink : Bool
  rootResolveIsDir : Bool
  rootEntry : FSEntry
  descendants : List FSEntry
  writeOk : Bool
deriving DecidableEq, Repr

/-- The observable outcome of one `main` invocation: the process exit
code, whether the root-is-a-symlink warning was logged, the output file
written (with its path), and the scanned items. -/
structure MainResult where
  exitCode : Nat
  warnedSymlinkRoot : Bool
  written : Option (List Str)
  items : Option (List EntryRecord)
deriving DecidableEq, Repr

/-- `.json`. -/
def jsonExt : Str := chars ".json"

/-- `main` from `scanner.py`: resolve the root; exit 1 unless it is a
directory or (warning instead) a symlink whose resolution is a
directory; compute the output path, defaulting to
`root.parent / f"{root.name}.json"`; scan; write, exiting 1 on write
failure (`scan_directory`'s own `sys.exit(1)` also surfaces as exit
code 1 with nothing written). -/
def main (args : ScanArgs) (env : MainEnv) : MainResult :=
  if env.rootIsDir || (env.rootIsSymlink && env.rootResolveIsDir) then
    let warned := !env.rootIsDir
    let default_name := pyName env.resolvedRoot ++ jsonExt
    let output_path := args.output.getD (env.resolvedRoot.dropLast ++ [default_name])
    match scan_directory env.resolvedRoot env.rootEntry env.descendants
        args.include_hidden with
    | none => ⟨1, warned, none, none⟩
    | some results =>
      if env.writeOk then ⟨0, warned, some output_path, some results⟩
      else ⟨1, warned, none, some results⟩
  else ⟨1, false, none, none⟩

/-! ### `clean_pycache` (`clean_pycache.py`) -/

/-- One path yielded by `root_dir.rglob("__pycache__")`: the matched
path, whether `is_dir()` holds for it, and whether `shutil.rmtree`
would succeed on it (`false` models the caught `OSError`). -/
structure PycacheCandidate where
  parts : List Str
  isDir : Bool
  rmtreeOk : Bool
deriving DecidableEq, Repr

/-- `__pycache__`. -/
def pycacheName : Str := chars "__pycache__"

/-- The `for pycache_dir in root_dir.rglob("__pycache__")` loop:
returns the final values of `pycache_folders_found`,
`pycache_folders_deleted`, and the list of directories actually removed
(in deletion order). In dry-run mode nothing is deleted; otherwise a
matching candidate is removed exactly when `rmtree` succeeds. -/
def cleanLoop (dry_run : Bool) : List PycacheCandidate → Nat × Nat × List (List Str)
  | [] => (0, 0, [])
  | c :: rest =>
    let r := cleanLoop dry_run rest
    if c.isDir && (pyName c.parts == pycacheName) then
      if dry_run then (r.1 + 1, r.2.1, r.2.2)
      else if c.rmtreeOk then (r.1 + 1, r.2.1 + 1, c.parts :: r.2.2)
      else (r.1 + 1, r.2.1, r.2.2)
    else r

/-- `clean_pycache` from `clean_pycache.py`: returns the function's
return value (folders found when `dry_run`, folders deleted otherwise;
`0` for an invalid root) together with the list of directories actually
removed from the filesystem. -/
def clean_pycache (rootIsDir : Bool) (cands : List PycacheCandidate)
    (dry_run : Bool) : Nat × List (List Str) :=
  if rootIsDir then
    let r := cleanLoop dry_run cands
    (if dry_run then r.1 else r.2.1, r.2.2)
  else (0, [])

/-! ### Well-formedness of `rglob` output

`root.rglob("*")` yields paths strictly below the root whose extra
components are real directory-entry names: nonempty, free of the
separator, and never the special name `.`. -/

/-- A real directory-entry name. -/
def ValidName (p : Str) : Prop := p ≠ [] ∧ '/' ∉ p ∧ p ≠ ['.']

/-- A nonempty list of real directory-entry names. -/
def ValidParts (parts : List Str) : Prop := parts ≠ [] ∧ ∀ p ∈ parts, ValidName p

instance : DecidablePred ValidName := fun p => by unfold ValidName; infer_instance

instance : DecidablePred ValidParts := fun parts => by unfold ValidParts; infer_instance

/-- The guarantee `rglob` gives for each yielded path. -/
def RglobOK (rootAbs : List Str) (e : FSEntry) : Prop :=
  rootAbs <+: e.absParts ∧ ValidParts (relParts rootAbs e)

instance (rootAbs : List Str) (e : FSEntry) : Decidable (RglobOK rootAbs e) := by
  unfold RglobOK; infer_instance

/-- The entry is suppressed by hidden filtering: some root-relative
path component (including its own name) begins with a dot. -/
def Hidden (rootAbs : List Str) (e : FSEntry) : Prop :=
  ∃ part ∈ relParts rootAbs e, startsWithDot part = true

instance (rootAbs : List Str) (e : FSEntry) : Decidable (Hidden rootAbs e) := by
  unfold Hidden; infer_instance

/-! ### Concrete inputs used by witnesses and counterexamples -/

/-- A directory stat (`drwxr-xr-x`). -/
def dirStat0 : Stat := ⟨0x41ED, 10, 20, 30, none, 4096⟩

/-- A regular-file stat (`-rw-r--r--`). -/
def fileStat0 : Stat := ⟨0x81A4, 10, 20, 30, none, 42⟩

/-- A regular file below root `r`. -/
def sampleFileEntry : FSEntry :=
  ⟨[chars "r", chars "notes.TXT"], some fileStat0, none⟩

/-- The fallback record used to name extractor outputs concretely. -/
def blankRec : EntryRecord :=
  ⟨[], .unknown, [], none, none, none, none, none, none, none⟩

/-- The record the extractor produces for `sampleFileEntry`. -/
def sampleRec : EntryRecord :=
  (get_file_metadata sampleFileEntry [chars "r"]).getD blankRec

/-- A host that surfaces `st_birthtime`, but whose value lies outside
the representable calendar range (one second past year 9999). -/
def badBirthEntry : FSEntry :=
  ⟨[chars "f"], some ⟨0x81A4, 0, 0, 0, some (MAX_TS + 1), 1⟩, none⟩

/-- A regular file on a host with no creation-time stat field. -/
def noBirthStat : Stat := ⟨0x81A4, 5, 6, 7, none, 1⟩

/-- Entry for `noBirthStat`. -/
def noBirthEntry : FSEntry := ⟨[chars "g"], some noBirthStat, none⟩

/-- The record the extractor produces for `noBirthEntry`. -/
def noBirthRec : EntryRecord := (get_file_metadata noBirthEntry []).getD blankRec

/-- Scan root `/r` for the hidden-filtering scenario. -/
def c1root : List Str := [chars "r"]

/-- The root directory entry of `/r`. -/
def c1rootE : FSEntry := ⟨[chars "r"], some dirStat0, none⟩

/-- `/r/.git`. -/
def c1git : FSEntry := ⟨[chars "r", chars ".git"], some dirStat0, none⟩

/-- `/r/.git/config`. -/
def c1cfg : FSEntry := ⟨[chars "r", chars ".git", chars "config"], some fileStat0, none⟩

/-- `/r/visible.txt`. -/
def c1vis : FSEntry := ⟨[chars "r", chars "visible.txt"], some fileStat0, none⟩

/-- The `rglob` enumeration of `/r`. -/
def c1ds : List FSEntry := [c1git, c1cfg, c1vis]

/-- The extractor's record for `/r/visible.txt`. -/
def c1visRec : EntryRecord := (get_file_metadata c1vis c1root).getD blankRec

/-- The items of the `include_hidden=False` scan of `/r`. -/
def c1items : List EntryRecord := (scan_directory c1root c1rootE c1ds false).getD []

/-- A descendant of `/d` whose `lstat` fails. -/
def failEntry : FSEntry := ⟨[chars "d", chars "x"], none, none⟩

/-- The root directory entry of `/d`. -/
def c6rootE : FSEntry := ⟨[chars "d"], some dirStat0, none⟩

/-- An environment whose only descendant cannot be statted. -/
def c6env : MainEnv :=
  ⟨[], [chars "d"], true, false, true, c6rootE, [failEntry], true⟩

/-- An environment where the scanned root `/tmp/proj` differs from the
invocation's working directory `/home/user`. -/
def c7env : MainEnv :=
  ⟨[chars "home", chars "user"], [chars "tmp", chars "proj"], true, false, true,
    ⟨[chars "tmp", chars "proj"], some dirStat0, none⟩, [], true⟩

/-- The `main`-level environment produced when `root_dir` is a symlink
to an existing directory `/real`: `resolve()` dereferences the link
before any check, so `is_dir()` on the resolved path reports `true` and
`is_symlink()` reports `false` (a fully resolved path contains no
symlink component). -/
def symlinkRootEnv : MainEnv :=
  ⟨[], [chars "real"], true, false, true,
    ⟨[chars "real"], some dirStat0, none⟩, [], true⟩

/-- A hidden-named scan root `/.app` with one visible descendant. -/
def c9rootE : FSEntry := ⟨[chars ".app"], some dirStat0, none⟩

/-- `/.app/data.txt`. -/
def c9data : FSEntry := ⟨[chars ".app", chars "data.txt"], some fileStat0, none⟩

/-- The extractor's record for `/.app/data.txt`. -/
def c9dataRec : EntryRecord := (get_file_metadata c9data [chars ".app"]).getD blankRec

/-- The extractor's record for the root `/.app`. -/
def c9rootRec : EntryRecord := (get_file_metadata c9rootE [chars ".app"]).getD blankRec

/-- Items of a scan of `/d` whose only descendant cannot be statted. -/
def c6scanItems : List EntryRecord :=
  (scan_directory [chars "d"] c6rootE [failEntry] false).getD []

/-! ### Helper lemmas: the timestamp normalizer -/

/-- Every `digitChar` is a decimal digit, in particular not `+`. -/
lemma digitChar_ne_plus (n : Nat) : digitChar n ≠ '+' := by
  unfold digitChar
  have h10 : n % 10 < 10 := Nat.mod_lt _ (by omega)
  set k := n % 10 with hk
  interval_cases k <;> decide

/-- The date-time core `YYYY-MM-DDTHH:MM:SS` consists of digits and the
separators `-`, `:`, `T`; the character `+` never occurs in it. -/
lemma plus_not_mem_isoCore (t : Nat) : '+' ∉ isoCore t := by
  have hd : ∀ n, ('+' = digitChar n) = False :=
    fun n => eq_false fun h => digitChar_ne_plus n h.symm
  have hm : ('+' = '-') = False := eq_false (by decide)
  have hc : ('+' = ':') = False := eq_false (by decide)
  have ht : ('+' = 'T') = False := eq_false (by decide)
  simp [isoCore, pad4, pad2, hd, hm, hc, ht]

/-- On a string not starting with `+`, the replacement leaves the head
character alone. -/
lemma replaceOffsetZ_cons_ne (a : Char) (t : Str) (ha : a ≠ '+') :
    replaceOffsetZ (a :: t) = a :: replaceOffsetZ t := by
  rw [replaceOffsetZ.eq_def]
  split
  · next rest heq => exact absurd (by injection heq) ha
  · next c rest heq =>
      injection heq with h1 h2
      subst h1; subst h2; rfl
  · next heq => exact absurd heq (by simp)

/-- If `+` does not occur in `s`, then replacing `+00:00` in
`s ++ "+00:00"` rewrites exactly the trailing offset to `Z`. -/
lemma replaceOffsetZ_append_off (s : Str) (h : '+' ∉ s) :
    replaceOffsetZ (s ++ offStr) = s ++ ['Z'] := by
  induction s with
  | nil => rfl
  | cons a s ih =>
      have ha : a ≠ '+' := fun he => h (he ▸ List.mem_cons_self a s)
      have h' : '+' ∉ s := fun hm => h (List.mem_cons_of_mem _ hm)
      rw [List.cons_append, replaceOffsetZ_cons_ne a _ ha, ih h', List.cons_append]

/-! ### Helper lemmas: paths -/

/-- Splitting a join on `/` recovers the components. -/
lemma segs_joinParts (parts : List Str) (h : ValidParts parts) :
    (joinParts parts).splitOn '/' = parts := by
  simpa [joinParts] using
    List.splitOn_intercalate parts '/' (fun l hl => (h.2 l hl).2.1) h.1

/-- `joinParts` is injective on valid component lists. -/
lemma joinParts_inj (l1 l2 : List Str) (h1 : ValidParts l1) (h2 : ValidParts l2)
    (h : joinParts l1 = joinParts l2) : l1 = l2 := by
  rw [← segs_joinParts l1 h1, ← segs_joinParts l2 h2, h]

/-- The join of valid components is never the literal `.`. -/
lemma joinParts_ne_dot (parts : List Str) (h : ValidParts parts) :
    joinParts parts ≠ ['.'] := by
  intro he
  have hs := segs_joinParts parts h
  rw [he] at hs
  have hp : parts = [['.']] := by
    rw [← hs]; decide
  exact (h.2 ['.'] (by rw [hp]; exact List.mem_singleton_self _)).2.2 rfl

/-! ### Helper lemmas: the extractor and the walker -/

/-- The `path` field of every extracted record is the computed relative
path (or the absolute fallback). -/
lemma get_file_metadata_path (e : FSEntry) (rootAbs : List Str)
    (m : EntryRecord) (hm : get_file_metadata e rootAbs = some m) :
    m.path = (match relative_to e.absParts rootAbs with
      | some rel => if rel = [] then ['.'] else joinParts rel
      | none => absRender e.absParts) := by
  cases hst : e.lstatResult with
  | none => simp [get_file_metadata, hst] at hm
  | some st =>
      simp only [get_file_metadata, hst] at hm
      cases hk : classify st.st_mode <;>
        simp only [hk, reduceCtorEq, if_true, if_false, reduceIte] at hm <;>
        (obtain rfl := Option.some.inj hm) <;> rfl

/-- For an `rglob`-yielded entry the record's path is the join of its
root-relative components. -/
lemma gfm_path_of_rglob (rootAbs : List Str) (e : FSEntry) (m : EntryRecord)
    (h : RglobOK rootAbs e) (hm : get_file_metadata e rootAbs = some m) :
    m.path = joinParts (relParts rootAbs e) := by
  rw [get_file_metadata_path e rootAbs m hm]
  have hrel : relative_to e.absParts rootAbs = some (relParts rootAbs e) := by
    simp [relative_to, h.1, relParts]
  rw [hrel]
  simp [h.2.1]

/-- A successful root extraction fixes the shape of the scan result. -/
lemma scan_directory_eq (rootAbs : List Str) (rootE : FSEntry)
    (ds : List FSEntry) (ih : Bool) (rm : EntryRecord)
    (hroot : get_file_metadata rootE rootAbs = some rm) :
    scan_directory rootAbs rootE ds ih =
      some ({ rm with path := ['.'] } :: ds.filterMap (scanStep rootAbs ih)) := by
  simp [scan_directory, hroot]

/-- The scan aborts exactly when the root's own metadata extraction
fails. -/
lemma scan_directory_none_iff (rootAbs : List Str) (rootE : FSEntry)
    (ds : List FSEntry) (ih : Bool) :
    scan_directory rootAbs rootE ds ih = none ↔
      get_file_metadata rootE rootAbs = none := by
  cases h : get_file_metadata rootE rootAbs <;> simp [scan_directory, h]

/-- With hidden filtering on, a hidden entry is skipped. -/
lemma scanStep_none_of_hidden (rootAbs : List Str) (e : FSEntry)
    (h : Hidden rootAbs e) : scanStep rootAbs false e = none := by
  have ha : (relParts rootAbs e).any (fun part => startsWithDot part) = true :=
    List.any_eq_true.mpr h
  simp [scanStep, ha]

/-- With hidden filtering on, a non-hidden entry passes through to the
extractor. -/
lemma scanStep_eq_of_not_hidden (rootAbs : List Str) (e : FSEntry)
    (h : ¬ Hidden rootAbs e) :
    scanStep rootAbs false e = get_file_metadata e rootAbs := by
  have ha : (relParts rootAbs e).any (fun part => startsWithDot part) = false := by
    rw [← Bool.not_eq_true]
    exact fun hc => h (List.any_eq_true.mp hc)
  simp [scanStep, ha]

/-- With `include_hidden` set, every entry passes through to the
extractor. -/
lemma scanStep_true (rootAbs : List Str) (e : FSEntry) :
    scanStep rootAbs true e = get_file_metadata e rootAbs := by
  simp [scanStep]

/-- A record contributed by the walk comes from the extractor. -/
lemma scanStep_some_implies (rootAbs : List Str) (ih : Bool) (e : FSEntry)
    (r : EntryRecord) (h : scanStep rootAbs ih e = some r) :
    get_file_metadata e rootAbs = some r := by
  unfold scanStep at h
  split at h
  · cases h
  · exact h

/-! ### Helper lemmas: the pycache cleaner -/

/-- The `found` counter counts the matching candidates. -/
lemma cleanLoop_found (dry : Bool) (cands : List PycacheCandidate) :
    (cleanLoop dry cands).1 =
      (cands.filter fun c => c.isDir && (pyName c.parts == pycacheName)).length := by
  induction cands with
  | nil => rfl
  | cons c rest ih =>
      by_cases h1 : (c.isDir && (pyName c.parts == pycacheName)) = true
      · cases dry <;> by_cases h2 : c.rmtreeOk = true <;>
          simp [cleanLoop, h1, h2, ih, List.filter]
      · simp [cleanLoop, h1, ih, List.filter,
          Bool.not_eq_true _ ▸ (Bool.of_not_eq_true h1)]

/-- In dry-run mode the loop deletes nothing. -/
lemma cleanLoop_dry (cands : List PycacheCandidate) :
    (cleanLoop true cands).2.1 = 0 ∧ (cleanLoop true cands).2.2 = [] := by
  induction cands with
  | nil => exact ⟨rfl, rfl⟩
  | cons c rest ih =>
      by_cases h1 : (c.isDir && (pyName c.parts == pycacheName)) = true <;>
        simp [cleanLoop, h1, ih]

/-- Outside dry-run mode the `deleted` counter counts the matching
candidates on which `rmtree` succeeds. -/
lemma cleanLoop_wet (cands : List PycacheCandidate) :
    (cleanLoop false cands).2.1 =
      (cands.filter fun c =>
        (c.isDir && (pyName c.parts == pycacheName)) && c.rmtreeOk).length := by
  induction cands with
  | nil => rfl
  | cons c rest ih =>
      by_cases h1 : (c.isDir && (pyName c.parts == pycacheName)) = true <;>
        by_cases h2 : c.rmtreeOk = true <;>
        simp [cleanLoop, h1, h2, ih, List.filter]

/-! ### The claims -/

/-- C2: For every input to the timestamp normalizer: `None` yields
null; an epoch value that cannot be converted to a valid calendar time
(outside `datetime`'s year range) yields null without raising; and
every other epoch value yields the UTC calendar time at whole-second
precision rendered as an ISO-8601 string whose `+00:00` offset is
replaced by the literal `Z` suffix (the textual replacement rewrites
exactly the trailing offset, since `+` cannot occur in the date-time
core). -/
theorem format_timestamp_spec :
    format_timestamp none = none ∧
    (∀ e : Int, e < MIN_TS ∨ MAX_TS < e → format_timestamp (some e) = none) ∧
    (∀ e : Int, MIN_TS ≤ e → e ≤ MAX_TS →
      format_timestamp (some e) = some (isoCore (e - MIN_TS).toNat ++ ['Z'])) := by
  refine ⟨rfl, ?_, ?_⟩
  · intro e he
    have hni : ¬(MIN_TS ≤ e ∧ e ≤ MAX_TS) := by
      rintro ⟨ha, hb⟩
      rcases he with h | h
      · exact absurd (lt_of_le_of_lt ha h) (lt_irrefl _)
      · exact absurd (lt_of_le_of_lt hb h) (lt_irrefl _)
    simp [format_timestamp, hni]
  · intro e h1 h2
    simp only [format_timestamp, isoformatUTC, if_pos (And.intro h1 h2)]
    rw [replaceOffsetZ_append_off _ (plus_not_mem_isoCore _)]

theorem format_timestamp_spec_witness :
    ((MAX_TS + 1 < MIN_TS ∨ MAX_TS < MAX_TS + 1) ∧
      format_timestamp (some (MAX_TS + 1)) = none) ∧
    (MIN_TS ≤ (0 : Int) ∧ (0 : Int) ≤ MAX_TS ∧
      format_timestamp (some 0) = some (chars "1970-01-01T00:00:00Z")) :=
  ⟨⟨Or.inr (by decide), format_timestamp_spec.2.1 (MAX_TS + 1) (Or.inr (by decide))⟩,
    ⟨by decide, by decide,
      (format_timestamp_spec.2.2 0 (by decide) (by decide)).trans (by decide)⟩⟩

/-- C4: For every record produced by the metadata extractor, the
type-conditional fields are determined solely by the record's type:
`size_bytes` and `extension` are present if and only if the type is
`file`, `symlink_target` is present if and only if the type is
`symlink`, and no type-specific field appears on a record of another
type. -/
theorem get_file_metadata_type_fields (e : FSEntry) (rootAbs : List Str)
    (m : EntryRecord) (hm : get_file_metadata e rootAbs = some m) :
    (m.size_bytes.isSome ↔ m.type = .file) ∧
    (m.extension.isSome ↔ m.type = .file) ∧
    (m.symlink_target.isSome ↔ m.type = .symlink) := by
  cases hst : e.lstatResult with
  | none => simp [get_file_metadata, hst] at hm
  | some st =>
      simp only [get_file_metadata, hst] at hm
      cases hk : classify st.st_mode <;>
        simp only [hk, reduceCtorEq, if_true, if_false, reduceIte] at hm <;>
        (obtain rfl := Option.some.inj hm) <;> simp

theorem get_file_metadata_type_fields_witness :
    get_file_metadata sampleFileEntry [chars "r"] = some sampleRec ∧
    ((sampleRec.size_bytes.isSome ↔ sampleRec.type = .file) ∧
      (sampleRec.extension.isSome ↔ sampleRec.type = .file) ∧
      (sampleRec.symlink_target.isSome ↔ sampleRec.type = .symlink)) :=
  ⟨by decide,
    get_file_metadata_type_fields sampleFileEntry [chars "r"] sampleRec (by decide)⟩

/-- C5 counterexample: on a host that surfaces `st_birthtime` with a
value outside the representable calendar range, the `created_utc` key
is added and `format_timestamp` maps the value to null, so the key is
present with an explicit null — refuting "`created_utc` is never
present-and-null". -/
theorem created_utc_present_null_cex :
    (get_file_metadata badBirthEntry []).map (fun m => m.created_utc) =
      some (some none) := by decide

/-- C5 (amended): `created_utc` is present exactly when the host
surfaces `st_birthtime`; when absent it is absent as a key, not null —
but its value is the formatted creation time, which is an explicit
null when the surfaced value cannot be converted. -/
theorem created_utc_presence (e : FSEntry) (rootAbs : List Str) (st : Stat)
    (hst : e.lstatResult = some st) (m : EntryRecord)
    (hm : get_file_metadata e rootAbs = some m) :
    (m.created_utc.isSome ↔ st.st_birthtime.isSome) ∧
    m.created_utc = st.st_birthtime.map (fun b => format_timestamp (some b)) := by
  simp only [get_file_metadata, hst] at hm
  cases hk : classify st.st_mode <;>
    simp only [hk, reduceCtorEq, if_true, if_false, reduceIte] at hm <;>
    (obtain rfl := Option.some.inj hm) <;>
    (refine ⟨?_, rfl⟩) <;> cases st.st_birthtime <;> simp

theorem created_utc_presence_witness :
    noBirthEntry.lstatResult = some noBirthStat ∧
    get_file_metadata noBirthEntry [] = some noBirthRec ∧
    ((noBirthRec.created_utc.isSome ↔ noBirthStat.st_birthtime.isSome) ∧
      noBirthRec.created_utc =
        noBirthStat.st_birthtime.map (fun b => format_timestamp (some b))) :=
  ⟨rfl, by decide,
    created_utc_presence noBirthEntry [] noBirthStat rfl noBirthRec (by decide)⟩

/-- C1 counterexample: with `include_hidden=False`, a descendant none
of whose root-relative components begins with a dot is nevertheless
omitted from the output when its `lstat` fails — the only emitted
record is the root's — so omission is not equivalent to hiddenness
without assuming the entry's metadata extraction succeeds. -/
theorem scan_hidden_filter_cex :
    ¬ Hidden [chars "d"] failEntry ∧
    scan_directory [chars "d"] c6rootE [failEntry] false = some c6scanItems ∧
    c6scanItems.map EntryRecord.path = [['.']] :=
  ⟨by decide, by decide, by decide⟩

/-- C1 (amended): for every descendant entry whose metadata extraction
succeeds, when `include_hidden` is false the scanner omits the entry
exactly when some root-relative path component (including its own
name) begins with a dot — so no extractable descendant of a hidden
directory appears — and with `include_hidden` true every extractable
entry appears. (Entries whose extraction fails are additionally
omitted; see the error-handling claim.) -/
theorem scan_hidden_filter (rootAbs : List Str) (rootE : FSEntry)
    (ds : List FSEntry) (ih : Bool) (e : FSEntry)
    (hds : ∀ d ∈ ds, RglobOK rootAbs d) (he : e ∈ ds)
    (m : EntryRecord) (hm : get_file_metadata e rootAbs = some m)
    (items : List EntryRecord)
    (hscan : scan_directory rootAbs rootE ds ih = some items) :
    (ih = false → (m ∈ items ↔ ¬ Hidden rootAbs e)) ∧
    (ih = true → m ∈ items) := by
  obtain ⟨rm, hroot⟩ : ∃ rm, get_file_metadata rootE rootAbs = some rm := by
    cases h : get_file_metadata rootE rootAbs with
    | none =>
        rw [(scan_directory_none_iff rootAbs rootE ds ih).mpr h] at hscan
        cases hscan
    | some rm => exact ⟨rm, rfl⟩
  rw [scan_directory_eq rootAbs rootE ds ih rm hroot] at hscan
  obtain rfl := Option.some.inj hscan
  constructor
  · rintro rfl
    constructor
    · intro hmem hHid
      rcases List.mem_cons.mp hmem with hre | htail
      · have hpath := gfm_path_of_rglob rootAbs e m (hds e he) hm
        have h1 : m.path = ['.'] := by rw [hre]
        rw [hpath] at h1
        exact joinParts_ne_dot _ (hds e he).2 h1
      · obtain ⟨d, hd, hstep⟩ := List.mem_filterMap.mp htail
        by_cases hHd : Hidden rootAbs d
        · rw [scanStep_none_of_hidden rootAbs d hHd] at hstep; cases hstep
        · rw [scanStep_eq_of_not_hidden rootAbs d hHd] at hstep
          have hpd := gfm_path_of_rglob rootAbs d m (hds d hd) hstep
          have hpe := gfm_path_of_rglob rootAbs e m (hds e he) hm
          have hde : relParts rootAbs d = relParts rootAbs e :=
            joinParts_inj _ _ (hds d hd).2 (hds e he).2 (hpd.symm.trans hpe)
          obtain ⟨p, hp, hps⟩ := hHid
          exact hHd ⟨p, by rw [hde]; exact hp, hps⟩
    · intro hnh
      refine List.mem_cons_of_mem _ (List.mem_filterMap.mpr ⟨e, he, ?_⟩)
      rw [scanStep_eq_of_not_hidden rootAbs e hnh]
      exact hm
  · rintro rfl
    exact List.mem_cons_of_mem _
      (List.mem_filterMap.mpr ⟨e, he, by rw [scanStep_true]; exact hm⟩)

theorem scan_hidden_filter_witness :
    (∀ d ∈ c1ds, RglobOK c1root d) ∧ c1vis ∈ c1ds ∧
    get_file_metadata c1vis c1root = some c1visRec ∧
    scan_directory c1root c1rootE c1ds false = some c1items ∧
    ((false = false → (c1visRec ∈ c1items ↔ ¬ Hidden c1root c1vis)) ∧
      (false = true → c1visRec ∈ c1items)) :=
  ⟨by decide, by decide, by decide, by decide,
    scan_hidden_filter c1root c1rootE c1ds false c1vis (by decide) (by decide)
      c1visRec (by decide) c1items (by decide)⟩

/-- C3: For every successful scan of any tree, the first element of
`items` is the root record with path the literal `.`, and no other
record in `items` has path `.`. -/
theorem scan_root_dot_unique (rootAbs : List Str) (rootE : FSEntry)
    (ds : List FSEntry) (ih : Bool)
    (hds : ∀ d ∈ ds, RglobOK rootAbs d)
    (items : List EntryRecord)
    (hscan : scan_directory rootAbs rootE ds ih = some items) :
    items.head?.map EntryRecord.path = some ['.'] ∧
    ∀ r ∈ items.tail, r.path ≠ ['.'] := by
  obtain ⟨rm, hroot⟩ : ∃ rm, get_file_metadata rootE rootAbs = some rm := by
    cases h : get_file_metadata rootE rootAbs with
    | none =>
        rw [(scan_directory_none_iff rootAbs rootE ds ih).mpr h] at hscan
        cases hscan
    | some rm => exact ⟨rm, rfl⟩
  rw [scan_directory_eq rootAbs rootE ds ih rm hroot] at hscan
  obtain rfl := Option.some.inj hscan
  refine ⟨rfl, ?_⟩
  intro r hr
  obtain ⟨d, hd, hstep⟩ := List.mem_filterMap.mp hr
  have hgd := scanStep_some_implies rootAbs ih d r hstep
  rw [gfm_path_of_rglob rootAbs d r (hds d hd) hgd]
  exact joinParts_ne_dot _ (hds d hd).2

theorem scan_root_dot_unique_witness :
    (∀ d ∈ c1ds, RglobOK c1root d) ∧
    scan_directory c1root c1rootE c1ds false = some c1items ∧
    (c1items.head?.map EntryRecord.path = some ['.'] ∧
      ∀ r ∈ c1items.tail, r.path ≠ ['.']) :=
  ⟨by decide, by decide,
    scan_root_dot_unique c1root c1rootE c1ds false (by decide) c1items (by decide)⟩

/-- C9: The hidden-entry filter never applies to the scan root itself:
for a root directory whose own name begins with a dot, scanning with
`include_hidden` false still emits the root record (first, with path
`.`) and every non-hidden extractable descendant, because hiddenness is
judged only on path components relative to the root — the root-name
hypothesis plays no role in the construction of the output. -/
theorem hidden_filter_spares_root (base : List Str) (rootName : Str)
    (hname : startsWithDot rootName = true)
    (rootE : FSEntry) (ds : List FSEntry)
    (rm : EntryRecord)
    (hroot : get_file_metadata rootE (base ++ [rootName]) = some rm)
    (e : FSEntry) (he : e ∈ ds) (m : EntryRecord)
    (hm : get_file_metadata e (base ++ [rootName]) = some m)
    (hnh : ¬ Hidden (base ++ [rootName]) e) :
    ∃ items, scan_directory (base ++ [rootName]) rootE ds false = some items ∧
      items.head?.map EntryRecord.path = some ['.'] ∧ m ∈ items := by
  clear hname
  refine ⟨_, scan_directory_eq _ _ _ _ _ hroot, rfl, ?_⟩
  refine List.mem_cons_of_mem _ (List.mem_filterMap.mpr ⟨e, he, ?_⟩)
  rw [scanStep_eq_of_not_hidden _ _ hnh]
  exact hm

theorem hidden_filter_spares_root_witness :
    startsWithDot (chars ".app") = true ∧
    get_file_metadata c9rootE ([] ++ [chars ".app"]) = some c9rootRec ∧
    c9data ∈ [c9data] ∧
    get_file_metadata c9data ([] ++ [chars ".app"]) = some c9dataRec ∧
    ¬ Hidden ([] ++ [chars ".app"]) c9data ∧
    (∃ items,
      scan_directory ([] ++ [chars ".app"]) c9rootE [c9data] false = some items ∧
      items.head?.map EntryRecord.path = some ['.'] ∧ c9dataRec ∈ items) :=
  ⟨by decide, by decide, by decide, by decide, by decide,
    hidden_filter_spares_root [] (chars ".app") (by decide) c9rootE [c9data]
      c9rootRec (by decide) c9data (by decide) c9dataRec (by decide) (by decide)⟩

/-- C6: Per-entry failures are absorbed at the point of detection: an
entry whose `lstat` fails is skipped by the walk; an entry whose
`lstat` succeeds always yields a record (invalid timestamps become
nulls inside it); an unreadable symlink target becomes a null
`symlink_target` field; the scan aborts exactly when the root's own
metadata extraction fails; and — for a root that is a directory — the
process exits nonzero exactly when root metadata extraction fails or
the output write fails. -/
theorem per_entry_failures_absorbed :
    (∀ (rootAbs : List Str) (ih : Bool) (e : FSEntry),
        e.lstatResult = none → scanStep rootAbs ih e = none) ∧
    (∀ (e : FSEntry) (rootAbs : List Str) (st : Stat),
        e.lstatResult = some st → (get_file_metadata e rootAbs).isSome) ∧
    (∀ (e : FSEntry) (rootAbs : List Str) (st : Stat) (m : EntryRecord),
        e.lstatResult = some st → classify st.st_mode = .symlink →
        e.readlinkResult = none → get_file_metadata e rootAbs = some m →
        m.symlink_target = some none) ∧
    (∀ (rootAbs : List Str) (rootE : FSEntry) (ds : List FSEntry) (ih : Bool),
        scan_directory rootAbs rootE ds ih = none ↔
          get_file_metadata rootE rootAbs = none) ∧
    (∀ (args : ScanArgs) (env : MainEnv), env.rootIsDir = true →
        ((main args env).exitCode = 1 ↔
          (get_file_metadata env.rootEntry env.resolvedRoot = none ∨
            env.writeOk = false))) := by
  refine ⟨?_, ?_, ?_,
    fun rootAbs rootE ds ih => scan_directory_none_iff rootAbs rootE ds ih, ?_⟩
  · intro rootAbs ih e h
    unfold scanStep
    split
    · rfl
    · simp [get_file_metadata, h]
  · intro e rootAbs st h
    cases hk : classify st.st_mode <;> simp [get_file_metadata, h, hk]
  · intro e rootAbs st m hst hk hread hm
    simp only [get_file_metadata, hst, hk, reduceCtorEq, if_true, if_false,
      reduceIte] at hm
    obtain rfl := Option.some.inj hm
    simp [hread]
  · intro args env hdir
    cases h : get_file_metadata env.rootEntry env.resolvedRoot with
    | none =>
        have hs : scan_directory env.resolvedRoot env.rootEntry env.descendants
            args.include_hidden = none := (scan_directory_none_iff _ _ _ _).mpr h
        simp [main, hdir, hs, h]
    | some rm =>
        have hs := scan_directory_eq env.resolvedRoot env.rootEntry
          env.descendants args.include_hidden rm h
        cases hw : env.writeOk <;> simp [main, hdir, hs, h, hw]

theorem per_entry_failures_absorbed_witness :
    failEntry.lstatResult = none ∧ scanStep [chars "d"] false failEntry = none ∧
    c6env.rootIsDir = true ∧
    ((main ⟨false, none⟩ c6env).exitCode = 1 ↔
      (get_file_metadata c6env.rootEntry c6env.resolvedRoot = none ∨
        c6env.writeOk = false)) :=
  ⟨rfl, per_entry_failures_absorbed.1 [chars "d"] false failEntry rfl,
    rfl, per_entry_failures_absorbed.2.2.2.2 ⟨false, none⟩ c6env rfl⟩

/-- C7 counterexample: with no `--output` option, for the scan of
`/tmp/proj` invoked from working directory `/home/user` the output file
is `/tmp/proj.json` — next to the scanned directory's parent, not in
the invocation's current working directory. -/
theorem default_output_in_cwd_cex :
    (main ⟨false, none⟩ c7env).written = some [chars "tmp", chars "proj.json"] ∧
    some [chars "tmp", chars "proj.json"] ≠
      some (c7env.cwd ++ [chars "proj.json"]) :=
  ⟨by decide, by decide⟩

/-- C7 (amended): when no `--output` option is given and an output file
is written, it is named `<root_dir_name>.json` and placed in the parent
directory of the resolved root — alongside the scanned directory, not
the invocation's working directory (the two coincide only when the
root's parent is the working directory). -/
theorem default_output_alongside_resolved_root (args : ScanArgs) (env : MainEnv)
    (hout : args.output = none) :
    (main args env).written = none ∨
    (main args env).written =
      some (env.resolvedRoot.dropLast ++ [pyName env.resolvedRoot ++ jsonExt]) := by
  unfold main
  split
  · cases hs : scan_directory env.resolvedRoot env.rootEntry env.descendants
        args.include_hidden with
    | none => simp
    | some results => cases hw : env.writeOk <;> simp [hout]
  · simp

theorem default_output_alongside_resolved_root_witness :
    (⟨false, none⟩ : ScanArgs).output = none ∧
    ((main ⟨false, none⟩ c7env).written = none ∨
      (main ⟨false, none⟩ c7env).written =
        some (c7env.resolvedRoot.dropLast ++
          [pyName c7env.resolvedRoot ++ jsonExt])) :=
  ⟨rfl, default_output_alongside_resolved_root ⟨false, none⟩ c7env rfl⟩

/-- C8 counterexample: when `root_dir` is a symlink to a directory the
resolved root reports `is_dir() = true`, so the scan proceeds through
the ordinary branch and no warning is emitted — refuting "emits a
warning"; the warning branch requires the already-resolved path itself
to fail `is_dir()` yet be a symlink to a directory, which resolution
precludes. -/
theorem root_symlink_warning_cex :
    (main ⟨false, none⟩ symlinkRootEnv).exitCode = 0 ∧
    (main ⟨false, none⟩ symlinkRootEnv).warnedSymlinkRoot = false :=
  ⟨by decide, by decide⟩

/-- C8 (amended): for a `root_dir` whose resolution is a directory —
in particular for a symlink resolving to a directory, since `resolve()`
dereferences it before the check — the scanner proceeds silently: no
warning is logged, and the exit code is 0 exactly when the root's
metadata extraction and the output write both succeed (so exit 1 is
reserved for non-directory resolutions, root-metadata failure, and
write failure). -/
theorem root_symlink_proceeds_silently (args : ScanArgs) (env : MainEnv)
    (hdir : env.rootIsDir = true) :
    (main args env).warnedSymlinkRoot = false ∧
    ((main args env).exitCode = 0 ↔
      (get_file_metadata env.rootEntry env.resolvedRoot).isSome ∧
        env.writeOk = true) := by
  cases h : get_file_metadata env.rootEntry env.resolvedRoot with
  | none =>
      have hs : scan_directory env.resolvedRoot env.rootEntry env.descendants
          args.include_hidden = none := (scan_directory_none_iff _ _ _ _).mpr h
      simp [main, hdir, hs]
  | some rm =>
      have hs := scan_directory_eq env.resolvedRoot env.rootEntry
        env.descendants args.include_hidden rm h
      cases hw : env.writeOk <;> simp [main, hdir, hs, hw]

theorem root_symlink_proceeds_silently_witness :
    symlinkRootEnv.rootIsDir = true ∧
    ((main ⟨false, none⟩ symlinkRootEnv).warnedSymlinkRoot = false ∧
      ((main ⟨false, none⟩ symlinkRootEnv).exitCode = 0 ↔
        (get_file_metadata symlinkRootEnv.rootEntry
          symlinkRootEnv.resolvedRoot).isSome ∧
          symlinkRootEnv.writeOk = true)) :=
  ⟨rfl, root_symlink_proceeds_silently ⟨false, none⟩ symlinkRootEnv rfl⟩

/-- C10: For every candidate enumeration, `clean_pycache` with
`dry_run` true deletes nothing (the list of removed directories is
empty) and returns the number of directories named `__pycache__`
found; with `dry_run` false it returns the number actually deleted
(those on which `rmtree` succeeds), which is at most the number
found. -/
theorem clean_pycache_dry_run_frame (cands : List PycacheCandidate) :
    clean_pycache true cands true =
      ((cands.filter fun c => c.isDir && (pyName c.parts == pycacheName)).length,
        []) ∧
    (clean_pycache true cands false).1 =
      (cands.filter fun c =>
        (c.isDir && (pyName c.parts == pycacheName)) && c.rmtreeOk).length ∧
    (clean_pycache true cands false).1 ≤
      (cands.filter fun c => c.isDir && (pyName c.parts == pycacheName)).length := by
  have h1 := cleanLoop_found true cands
  have h2 := cleanLoop_dry cands
  have h3 := cleanLoop_wet cands
  refine ⟨?_, ?_, ?_⟩
  · simp [clean_pycache, Prod.ext_iff, h1, h2.2]
  · simp [clean_pycache, h3]
  · simp only [clean_pycache, if_true, reduceIte, h3]
    have hcomm :
        (fun c : PycacheCandidate =>
          (c.isDir && (pyName c.parts == pycacheName)) && c.rmtreeOk) =
        (fun c : PycacheCandidate =>
          c.rmtreeOk && (c.isDir && (pyName c.parts == pycacheName))) := by
      funext c
      exact Bool.and_comm _ _
    rw [hcomm, ← List.filter_filter]
    exact List.length_filter_le _ _

end Tools
